import Mathlib

/-!
Verification of the hyde configuration core (src/hyde/model.py).

The development shallowly embeds the Python module: Python values (YAML
scalars, lists, tuples, sets, dicts) and Expando objects become the
inductive type PyVal; Python dicts become association lists in insertion
order with unique keys (dict assignment is the setKey operation, which
replaces in place or appends); the file system, the YAML codec and path
joining (the fswrap / yaml collaborators, external to the repository) are
modelled from the spec's collaborator contracts as an abstract FS record.
Stateful classes (Config, Dependents) become explicit state records with
functions from state to state.

Modelling notes, stated once here:
- Python dict keys are unique and iterate in insertion order; the
  association lists that embed dicts therefore carry their keys without
  duplicates.  Hypotheses of the form Nodup make that representation
  invariant explicit where a proof needs it.
- Python sets are modelled as lists of elements in iteration order; Python
  itself restricts set elements to hashable values (no dicts or lists
  inside sets), and every theorem below only exercises such sets.
- Config in Python stores its bookkeeping attributes (default_config,
  config_file, config_dict, load_time, config_files, sitepath) in the same
  attribute dictionary as the loaded configuration keys.  The model keeps
  them as separate record fields; configuration documents whose keys
  collide with those attribute names are outside the model (no claim uses
  such keys).
- The inheritance chain of read_config has no cycle guard in the source
  and can recurse without bound; the model makes the recursion total with
  an explicit fuel parameter.  Enough fuel makes the model agree with the
  source on every terminating chain; the fuel-exhausted branch behaves
  like a document without an extends key.
- datetime values are modelled as integers; datetime.min is the constant
  datetimeMin, and datetime.now() is a parameter called now.
-/

set_option autoImplicit false

/-- Key of a Python dict as it reaches Expando.set_expando: YAML mapping
keys are usually strings but may also be integers; set_expando coerces
either through str. -/
inductive Key where
  | kstr (s : String)
  | kint (n : Int)
deriving DecidableEq, Repr

/-- Python str() on a dict key, as applied by Expando.set_expando. -/
def Key.toString : Key → String
  | .kstr s => s
  | .kint n => ToString.toString n

/-- A Python value as handled by hyde.model: None, bool, int, str, the
SEQS container kinds (list, tuple, set; frozenset is identified with set),
dict, and Expando objects (whose attribute dictionary is string-keyed). -/
inductive PyVal where
  | pynull
  | pybool (b : Bool)
  | pyint (n : Int)
  | pystr (s : String)
  | pylist (xs : List PyVal)
  | pytup (xs : List PyVal)
  | pyset (xs : List PyVal)
  | pydict (kvs : List (Key × PyVal))
  | pyexpando (attrs : List (String × PyVal))
deriving Repr

/-- Python dict assignment d[k] = v on an insertion-ordered association
list: an existing key keeps its position and gets the new value, a new key
is appended. -/
def setKey {α β : Type} [DecidableEq α] : List (α × β) → α → β → List (α × β)
  | [], k, v => [(k, v)]
  | (k1, v1) :: rest, k, v =>
      if k1 = k then (k, v) :: rest else (k1, v1) :: setKey rest k v

/-- Python dict lookup d.get(k) on an association list. -/
def lookupKV {α β : Type} [DecidableEq α] : List (α × β) → α → Option β
  | [], _ => none
  | (k1, v1) :: rest, k => if k1 = k then some v1 else lookupKV rest k

/-- Python dict.update(s) on association lists: every key of s is
assigned into d in iteration order. -/
def updateKV {α β : Type} [DecidableEq α] (d s : List (α × β)) : List (α × β) :=
  s.foldl (fun acc kv => setKey acc kv.1 kv.2) d

theorem lookupKV_setKey {α β : Type} [DecidableEq α]
    (l : List (α × β)) (k k2 : α) (v : β) :
    lookupKV (setKey l k v) k2 = if k2 = k then some v else lookupKV l k2 := by
  induction l with
  | nil =>
      by_cases h : k2 = k
      · simp [setKey, lookupKV, h]
      · simp [setKey, lookupKV, h, Ne.symm h]
  | cons p rest ih =>
      obtain ⟨k1, v1⟩ := p
      by_cases h1 : k1 = k
      · subst h1
        by_cases h2 : k2 = k1
        · simp [setKey, lookupKV, h2]
        · simp [setKey, lookupKV, h2, Ne.symm h2]
      · by_cases h2 : k2 = k1
        · subst h2
          simp [setKey, lookupKV, h1, Ne.symm h1]
        · simp [setKey, lookupKV, h1, h2, Ne.symm h2, ih]

theorem lookupKV_eq_none_of_not_mem {α β : Type} [DecidableEq α]
    (l : List (α × β)) (k : α) (h : k ∉ l.map Prod.fst) :
    lookupKV l k = none := by
  induction l with
  | nil => rfl
  | cons p rest ih =>
      obtain ⟨k1, v1⟩ := p
      simp only [List.map_cons, List.mem_cons] at h
      push_neg at h
      simp [lookupKV, Ne.symm h.1, ih h.2]

theorem setKey_eq_append_of_not_mem {α β : Type} [DecidableEq α]
    (l : List (α × β)) (k : α) (v : β) (h : k ∉ l.map Prod.fst) :
    setKey l k v = l ++ [(k, v)] := by
  induction l with
  | nil => rfl
  | cons p rest ih =>
      obtain ⟨k1, v1⟩ := p
      simp only [List.map_cons, List.mem_cons] at h
      push_neg at h
      simp [setKey, Ne.symm h.1, ih h.2]

theorem map_fst_setKey {α β : Type} [DecidableEq α]
    (l : List (α × β)) (k : α) (v : β) :
    (setKey l k v).map Prod.fst =
      if k ∈ l.map Prod.fst then l.map Prod.fst else l.map Prod.fst ++ [k] := by
  induction l with
  | nil => simp [setKey]
  | cons p rest ih =>
      obtain ⟨k1, v1⟩ := p
      by_cases h1 : k1 = k
      · subst h1
        simp [setKey]
      · by_cases h2 : k ∈ rest.map Prod.fst <;>
          simp [setKey, h1, Ne.symm h1, ih, h2]

theorem nodup_map_fst_setKey {α β : Type} [DecidableEq α]
    (l : List (α × β)) (k : α) (v : β) (h : (l.map Prod.fst).Nodup) :
    ((setKey l k v).map Prod.fst).Nodup := by
  rw [map_fst_setKey]
  by_cases hm : k ∈ l.map Prod.fst
  · simpa [hm]
  · simpa [hm] using List.Nodup.append h (by simp) (by simpa using hm)

theorem lookupKV_updateKV {α β : Type} [DecidableEq α]
    (d s : List (α × β)) (k : α) (hs : (s.map Prod.fst).Nodup) :
    lookupKV (updateKV d s) k = (lookupKV s k).orElse (fun _ => lookupKV d k) := by
  induction s generalizing d with
  | nil => simp [updateKV, lookupKV]
  | cons p rest ih =>
      obtain ⟨k1, v1⟩ := p
      simp only [List.map_cons, List.nodup_cons] at hs
      have hstep : updateKV d ((k1, v1) :: rest) = updateKV (setKey d k1 v1) rest := rfl
      rw [hstep, ih (setKey d k1 v1) hs.2]
      by_cases h1 : k = k1
      · subst h1
        rw [lookupKV_eq_none_of_not_mem rest k hs.1]
        simp [lookupKV, lookupKV_setKey]
      · simp [lookupKV, Ne.symm h1, h1, lookupKV_setKey]

mutual

/-- Function make_expando of hyde.model: a dict becomes an Expando (its
items are set through Expando.update and set_expando in iteration order),
a SEQS container becomes the same container kind with every element
transformed, everything else passes through unchanged. -/
def make_expando : PyVal → PyVal
  | .pydict kvs => .pyexpando (expandoOfDict kvs [])
  | .pylist xs => .pylist (makeList xs)
  | .pytup xs => .pytup (makeList xs)
  | .pyset xs => .pyset (makeList xs)
  | v => v

/-- Elementwise make_expando over the generator seq(make_expando(attr)
for attr in primitive). -/
def makeList : List PyVal → List PyVal
  | [] => []
  | x :: xs => make_expando x :: makeList xs

/-- Attribute dictionary built by Expando.update from a dict: each item
is set via set_expando, which applies str() to the key and make_expando
to the value; setattr keeps the position of an existing attribute name. -/
def expandoOfDict : List (Key × PyVal) → List (String × PyVal) → List (String × PyVal)
  | [], acc => acc
  | (k, v) :: rest, acc => expandoOfDict rest (setKey acc k.toString (make_expando v))

end

/-- Method Expando.set_expando: setattr(self, str(key), make_expando(value)). -/
def set_expando (attrs : List (String × PyVal)) (k : Key) (v : PyVal) :
    List (String × PyVal) :=
  setKey attrs k.toString (make_expando v)

/-- Method Expando.update applied to a dict argument: every item of the
dict is set onto the attribute dictionary via set_expando. -/
def Expando.update (attrs : List (String × PyVal)) (d : List (Key × PyVal)) :
    List (String × PyVal) :=
  d.foldl (fun acc kv => set_expando acc kv.1 kv.2) attrs

mutual

/-- Value stored by Expando.to_dict for one attribute value: an Expando
becomes its to_dict (the accumulation loop to_dictFold started empty), a
SEQS container is rebuilt with the same kind converting only its Expando
elements (one level: nested containers pass through unchanged),
everything else passes through. -/
def to_dict_val : PyVal → PyVal
  | .pyexpando attrs => .pydict (to_dictFold attrs [])
  | .pylist xs => .pylist (to_dictItems xs)
  | .pytup xs => .pytup (to_dictItems xs)
  | .pyset xs => .pyset (to_dictItems xs)
  | v => v

/-- Elementwise conversion seq(item.to_dict() if isinstance(item, Expando)
else item for item in v): only direct Expando elements are converted. -/
def to_dictItems : List PyVal → List PyVal
  | [] => []
  | .pyexpando attrs :: rest => .pydict (to_dictFold attrs []) :: to_dictItems rest
  | x :: rest => x :: to_dictItems rest

/-- Result-dict accumulation loop of Expando.to_dict: builds the result
dict assigning result[k] in iteration order. -/
def to_dictFold : List (String × PyVal) → List (Key × PyVal) → List (Key × PyVal)
  | [], acc => acc
  | (k, v) :: rest, acc => to_dictFold rest (setKey acc (Key.kstr k) (to_dict_val v))

end

/-- Method Expando.to_dict over an attribute dictionary. -/
def to_dict (attrs : List (String × PyVal)) : List (Key × PyVal) :=
  to_dictFold attrs []


/-- Full round trip of the claim: Expando.to_dict applied to
make_expando(v) (and the identity on values make_expando leaves alone). -/
def roundTrip (v : PyVal) : PyVal :=
  to_dict_val (make_expando v)

/-- Test for a string dict key (Python isinstance(key, str)). -/
def isStrKey : Key → Bool
  | .kstr _ => true
  | .kint _ => false

/-- Attribute names a dict's keys turn into: str() of each key in order. -/
def tsKeys (kvs : List (Key × PyVal)) : List String :=
  kvs.map (fun kv => kv.1.toString)

/-- Well-formed configuration-style dict: all keys are strings and their
string forms are pairwise distinct (a Python dict with string keys). -/
def wfDocB (kvs : List (Key × PyVal)) : Bool :=
  kvs.all (fun kv => isStrKey kv.1) && decide (tsKeys kvs).Nodup

/-- Test for an Expando object (Python isinstance(v, Expando)). -/
def isExpando : PyVal → Bool
  | .pyexpando _ => true
  | _ => false

mutual

/-- Value containing no dict and no Expando anywhere: make_expando is the
identity on such values. -/
def mapFree : PyVal → Bool
  | .pylist xs => mapFreeList xs
  | .pytup xs => mapFreeList xs
  | .pyset xs => mapFreeList xs
  | .pydict _ => false
  | .pyexpando _ => false
  | _ => true

/-- Elementwise mapFree. -/
def mapFreeList : List PyVal → Bool
  | [] => true
  | x :: xs => mapFree x && mapFreeList xs

end

mutual

/-- Values on which the wrap/unwrap round trip is exact: dicts are
string-keyed with distinct keys and appear, inside containers, only as
direct elements (to_dict converts Expando elements of a sequence one
level deep only, so a dict nested in a sequence within another sequence
would come back still wrapped). -/
def goodVal : PyVal → Bool
  | .pylist xs => goodElems xs
  | .pytup xs => goodElems xs
  | .pyset xs => goodElems xs
  | .pydict kvs => wfDocB kvs && goodDict kvs
  | .pyexpando _ => false
  | _ => true

/-- Every value of a dict is good. -/
def goodDict : List (Key × PyVal) → Bool
  | [] => true
  | (_, v) :: rest => goodVal v && goodDict rest

/-- Elements of a container: a direct dict element must be good (it is
converted back by to_dict), every other element must be free of dicts
(it is passed through unchanged by to_dict). -/
def goodElems : List PyVal → Bool
  | [] => true
  | .pydict kvs :: rest => (wfDocB kvs && goodDict kvs) && goodElems rest
  | x :: rest => mapFree x && goodElems rest

end

/-- Attribute dictionary that Expando.update builds from a dict whose
coerced keys are fresh throughout: the str() of each key paired with the
wrapped value, in iteration order. -/
def docToAttrs (kvs : List (Key × PyVal)) : List (String × PyVal) :=
  kvs.map (fun kv => (kv.1.toString, make_expando kv.2))

theorem map_fst_docToAttrs (kvs : List (Key × PyVal)) :
    (docToAttrs kvs).map Prod.fst = tsKeys kvs := by
  simp [docToAttrs, tsKeys]

theorem expandoOfDict_eq_append (kvs : List (Key × PyVal)) :
    ∀ (acc : List (String × PyVal)), (tsKeys kvs).Nodup →
    (∀ s ∈ acc.map Prod.fst, s ∉ tsKeys kvs) →
    expandoOfDict kvs acc = acc ++ docToAttrs kvs := by
  induction kvs with
  | nil => intro acc _ _; simp [expandoOfDict, docToAttrs]
  | cons kv rest ih =>
      intro acc hnd hfresh
      obtain ⟨k, v⟩ := kv
      have hts : tsKeys ((k, v) :: rest) = k.toString :: tsKeys rest := rfl
      rw [hts, List.nodup_cons] at hnd
      have hk : k.toString ∉ acc.map Prod.fst := by
        intro hmem
        exact hfresh _ hmem (by rw [hts]; exact List.mem_cons_self _ _)
      rw [expandoOfDict, setKey_eq_append_of_not_mem _ _ _ hk,
        ih (acc ++ [(k.toString, make_expando v)]) hnd.2 ?later]
      · simp [docToAttrs]
      · intro s hs
        rw [List.map_append] at hs
        rcases List.mem_append.mp hs with hs1 | hs2
        · intro hbad
          exact hfresh s hs1 (by rw [hts]; exact List.mem_cons_of_mem _ hbad)
        · simp only [List.map_cons, List.map_nil, List.mem_singleton] at hs2
          rw [hs2]
          exact hnd.1

theorem to_dictFold_eq_append (attrs : List (String × PyVal)) :
    ∀ (acc : List (Key × PyVal)), (attrs.map Prod.fst).Nodup →
    (∀ k ∈ acc.map Prod.fst, ∀ s ∈ attrs.map Prod.fst, k ≠ Key.kstr s) →
    to_dictFold attrs acc =
      acc ++ attrs.map (fun kv => (Key.kstr kv.1, to_dict_val kv.2)) := by
  induction attrs with
  | nil => intro acc _ _; simp [to_dictFold]
  | cons kv rest ih =>
      intro acc hnd hfresh
      obtain ⟨k, v⟩ := kv
      simp only [List.map_cons, List.nodup_cons] at hnd
      have hk : Key.kstr k ∉ acc.map Prod.fst := by
        intro hmem
        exact hfresh _ hmem k (by simp) rfl
      rw [to_dictFold, setKey_eq_append_of_not_mem _ _ _ hk,
        ih (acc ++ [(Key.kstr k, to_dict_val v)]) hnd.2 ?later]
      · simp
      · intro k2 hk2 s hs
        rw [List.map_append] at hk2
        rcases List.mem_append.mp hk2 with h1 | h2
        · exact hfresh k2 h1 s (by simp [hs])
        · simp only [List.map_cons, List.map_nil, List.mem_singleton] at h2
          rw [h2]
          intro hbad
          exact hnd.1 (by rw [Key.kstr.injEq] at hbad; rw [hbad]; exact hs)

theorem isExpando_false_of_mapFree (v : PyVal) (h : mapFree v = true) :
    isExpando v = false := by
  cases v <;> first
    | rfl
    | exact Bool.noConfusion (show false = true from h)

theorem to_dictItems_cons_of_not_expando (x : PyVal) (l : List PyVal)
    (h : isExpando x = false) :
    to_dictItems (x :: l) = x :: to_dictItems l := by
  cases x <;> first
    | rfl
    | exact Bool.noConfusion (show true = false from h)

mutual

theorem make_expando_of_mapFree (v : PyVal) (h : mapFree v = true) :
    make_expando v = v := by
  match v with
  | .pynull | .pybool _ | .pyint _ | .pystr _ => rfl
  | .pylist xs =>
      show PyVal.pylist (makeList xs) = PyVal.pylist xs
      rw [makeList_of_mapFreeList xs (show mapFreeList xs = true from h)]
  | .pytup xs =>
      show PyVal.pytup (makeList xs) = PyVal.pytup xs
      rw [makeList_of_mapFreeList xs (show mapFreeList xs = true from h)]
  | .pyset xs =>
      show PyVal.pyset (makeList xs) = PyVal.pyset xs
      rw [makeList_of_mapFreeList xs (show mapFreeList xs = true from h)]
  | .pydict kvs => exact Bool.noConfusion (show false = true from h)
  | .pyexpando attrs => exact Bool.noConfusion (show false = true from h)

theorem makeList_of_mapFreeList (xs : List PyVal) (h : mapFreeList xs = true) :
    makeList xs = xs := by
  match xs with
  | [] => rfl
  | x :: rest =>
      have h2 : mapFree x = true ∧ mapFreeList rest = true := by
        rw [show mapFreeList (x :: rest) = (mapFree x && mapFreeList rest) from rfl,
          Bool.and_eq_true] at h
        exact h
      show make_expando x :: makeList rest = x :: rest
      rw [make_expando_of_mapFree x h2.1, makeList_of_mapFreeList rest h2.2]

end

mutual

theorem roundTrip_goodVal (v : PyVal) (h : goodVal v = true) :
    to_dict_val (make_expando v) = v := by
  match v with
  | .pynull | .pybool _ | .pyint _ | .pystr _ => rfl
  | .pylist xs =>
      show PyVal.pylist (to_dictItems (makeList xs)) = PyVal.pylist xs
      rw [roundTrip_goodElems xs (show goodElems xs = true from h)]
  | .pytup xs =>
      show PyVal.pytup (to_dictItems (makeList xs)) = PyVal.pytup xs
      rw [roundTrip_goodElems xs (show goodElems xs = true from h)]
  | .pyset xs =>
      show PyVal.pyset (to_dictItems (makeList xs)) = PyVal.pyset xs
      rw [roundTrip_goodElems xs (show goodElems xs = true from h)]
  | .pyexpando attrs => exact Bool.noConfusion (show false = true from h)
  | .pydict kvs =>
      have h2 : wfDocB kvs = true ∧ goodDict kvs = true := by
        rw [show goodVal (PyVal.pydict kvs) = (wfDocB kvs && goodDict kvs) from rfl,
          Bool.and_eq_true] at h
        exact h
      have hwf : kvs.all (fun kv => isStrKey kv.1) = true ∧ (tsKeys kvs).Nodup := by
        have h3 := h2.1
        rw [wfDocB, Bool.and_eq_true, decide_eq_true_eq] at h3
        exact h3
      show PyVal.pydict (to_dictFold (expandoOfDict kvs []) []) = PyVal.pydict kvs
      rw [expandoOfDict_eq_append kvs [] hwf.2 (by simp), List.nil_append,
        to_dictFold_eq_append (docToAttrs kvs) []
          (by rw [map_fst_docToAttrs]; exact hwf.2) (by simp),
        List.nil_append, docToAttrs, List.map_map,
        roundTrip_goodDict kvs hwf.1 h2.2]

theorem roundTrip_goodDict (kvs : List (Key × PyVal))
    (hs : kvs.all (fun kv => isStrKey kv.1) = true) (hg : goodDict kvs = true) :
    kvs.map ((fun kv => (Key.kstr kv.1, to_dict_val kv.2)) ∘
      (fun kv => (kv.1.toString, make_expando kv.2))) = kvs := by
  match kvs with
  | [] => rfl
  | (k, v) :: rest =>
      rw [List.all_cons, Bool.and_eq_true] at hs
      have hg2 : goodVal v = true ∧ goodDict rest = true := by
        rw [show goodDict ((k, v) :: rest) = (goodVal v && goodDict rest) from rfl,
          Bool.and_eq_true] at hg
        exact hg
      have hk : Key.kstr k.toString = k := by
        cases k with
        | kstr s => rfl
        | kint n => exact Bool.noConfusion (show false = true from hs.1)
      rw [List.map_cons, roundTrip_goodDict rest hs.2 hg2.2]
      simp only [Function.comp_apply]
      rw [roundTrip_goodVal v hg2.1, hk]

theorem roundTrip_goodElems (xs : List PyVal) (h : goodElems xs = true) :
    to_dictItems (makeList xs) = xs := by
  match xs with
  | [] => rfl
  | .pydict kvs :: rest =>
      have h2 : (wfDocB kvs && goodDict kvs) = true ∧ goodElems rest = true := by
        rw [show goodElems (PyVal.pydict kvs :: rest) =
          ((wfDocB kvs && goodDict kvs) && goodElems rest) from rfl,
          Bool.and_eq_true] at h
        exact h
      have hv : to_dict_val (make_expando (PyVal.pydict kvs)) = PyVal.pydict kvs :=
        roundTrip_goodVal (PyVal.pydict kvs) (show goodVal (PyVal.pydict kvs) = true from h2.1)
      show PyVal.pydict (to_dictFold (expandoOfDict kvs []) []) :: to_dictItems (makeList rest)
        = PyVal.pydict kvs :: rest
      rw [show PyVal.pydict (to_dictFold (expandoOfDict kvs []) [])
          = to_dict_val (make_expando (PyVal.pydict kvs)) from rfl,
        hv, roundTrip_goodElems rest h2.2]
  | .pynull :: rest =>
      have h2 : mapFree PyVal.pynull = true ∧ goodElems rest = true := by
        rw [show goodElems (PyVal.pynull :: rest) =
          (mapFree PyVal.pynull && goodElems rest) from rfl, Bool.and_eq_true] at h
        exact h
      show to_dictItems (make_expando PyVal.pynull :: makeList rest) = PyVal.pynull :: rest
      rw [make_expando_of_mapFree _ h2.1,
        to_dictItems_cons_of_not_expando _ _ (isExpando_false_of_mapFree _ h2.1),
        roundTrip_goodElems rest h2.2]
  | .pybool b :: rest =>
      have h2 : mapFree (PyVal.pybool b) = true ∧ goodElems rest = true := by
        rw [show goodElems (PyVal.pybool b :: rest) =
          (mapFree (PyVal.pybool b) && goodElems rest) from rfl, Bool.and_eq_true] at h
        exact h
      show to_dictItems (make_expando (PyVal.pybool b) :: makeList rest) = PyVal.pybool b :: rest
      rw [make_expando_of_mapFree _ h2.1,
        to_dictItems_cons_of_not_expando _ _ (isExpando_false_of_mapFree _ h2.1),
        roundTrip_goodElems rest h2.2]
  | .pyint n :: rest =>
      have h2 : mapFree (PyVal.pyint n) = true ∧ goodElems rest = true := by
        rw [show goodElems (PyVal.pyint n :: rest) =
          (mapFree (PyVal.pyint n) && goodElems rest) from rfl, Bool.and_eq_true] at h
        exact h
      show to_dictItems (make_expando (PyVal.pyint n) :: makeList rest) = PyVal.pyint n :: rest
      rw [make_expando_of_mapFree _ h2.1,
        to_dictItems_cons_of_not_expando _ _ (isExpando_false_of_mapFree _ h2.1),
        roundTrip_goodElems rest h2.2]
  | .pystr s :: rest =>
      have h2 : mapFree (PyVal.pystr s) = true ∧ goodElems rest = true := by
        rw [show goodElems (PyVal.pystr s :: rest) =
          (mapFree (PyVal.pystr s) && goodElems rest) from rfl, Bool.and_eq_true] at h
        exact h
      show to_dictItems (make_expando (PyVal.pystr s) :: makeList rest) = PyVal.pystr s :: rest
      rw [make_expando_of_mapFree _ h2.1,
        to_dictItems_cons_of_not_expando _ _ (isExpando_false_of_mapFree _ h2.1),
        roundTrip_goodElems rest h2.2]
  | .pylist ys :: rest =>
      have h2 : mapFree (PyVal.pylist ys) = true ∧ goodElems rest = true := by
        rw [show goodElems (PyVal.pylist ys :: rest) =
          (mapFree (PyVal.pylist ys) && goodElems rest) from rfl, Bool.and_eq_true] at h
        exact h
      show to_dictItems (make_expando (PyVal.pylist ys) :: makeList rest) = PyVal.pylist ys :: rest
      rw [make_expando_of_mapFree _ h2.1,
        to_dictItems_cons_of_not_expando _ _ (isExpando_false_of_mapFree _ h2.1),
        roundTrip_goodElems rest h2.2]
  | .pytup ys :: rest =>
      have h2 : mapFree (PyVal.pytup ys) = true ∧ goodElems rest = true := by
        rw [show goodElems (PyVal.pytup ys :: rest) =
          (mapFree (PyVal.pytup ys) && goodElems rest) from rfl, Bool.and_eq_true] at h
        exact h
      show to_dictItems (make_expando (PyVal.pytup ys) :: makeList rest) = PyVal.pytup ys :: rest
      rw [make_expando_of_mapFree _ h2.1,
        to_dictItems_cons_of_not_expando _ _ (isExpando_false_of_mapFree _ h2.1),
        roundTrip_goodElems rest h2.2]
  | .pyset ys :: rest =>
      have h2 : mapFree (PyVal.pyset ys) = true ∧ goodElems rest = true := by
        rw [show goodElems (PyVal.pyset ys :: rest) =
          (mapFree (PyVal.pyset ys) && goodElems rest) from rfl, Bool.and_eq_true] at h
        exact h
      show to_dictItems (make_expando (PyVal.pyset ys) :: makeList rest) = PyVal.pyset ys :: rest
      rw [make_expando_of_mapFree _ h2.1,
        to_dictItems_cons_of_not_expando _ _ (isExpando_false_of_mapFree _ h2.1),
        roundTrip_goodElems rest h2.2]
  | .pyexpando attrs :: rest =>
      have h2 : mapFree (PyVal.pyexpando attrs) = true ∧ goodElems rest = true := by
        rw [show goodElems (PyVal.pyexpando attrs :: rest) =
          (mapFree (PyVal.pyexpando attrs) && goodElems rest) from rfl, Bool.and_eq_true] at h
        exact h
      exact Bool.noConfusion (show false = true from h2.1)

end


/-- Joined child path. Modelled from the spec: the file abstraction is an
external collaborator offering child-path construction; paths are plain
strings joined with a separator. -/
def childPath (dir name : String) : String := dir ++ "/" ++ name

/-- Modelled from the spec: the external file-system and structured-text
codec collaborators (existence check, read plus parse, modification
timestamp, directory existence).  Field files gives the parsed YAML
content of a path when the file exists, mtimes its modification time,
dirs whether a directory exists at a path. -/
structure FS where
  files : String → Option PyVal
  mtimes : String → Int
  dirs : String → Bool

/-- Modelled from the spec: fswrap File.exists. -/
def FS.isFile (fs : FS) (p : String) : Bool :=
  (fs.files p).isSome

/-- Items of a parsed YAML document used as a mapping.  Configuration
documents are mappings; a non-mapping document would fail later in
Python and no claim uses one. -/
def dictItems : PyVal → List (Key × PyVal)
  | .pydict kvs => kvs
  | _ => []

/-- Modelled from the spec: yaml.load of the file's text for provider
resources, which may be any YAML value. -/
def FS.parseVal (fs : FS) (p : String) : PyVal :=
  (fs.files p).getD .pynull

/-- Modelled from the spec: fswrap File.has_changed_since, true when the
on-disk modification time is strictly newer than the given time. -/
def FS.has_changed_since (fs : FS) (p : String) (t : Int) : Bool :=
  fs.mtimes p > t

/-- Part of Context.load: context.update(ctx.data.__dict__) under the
AttributeError handler; a configuration without a data member, or whose
data member is not an Expando (no attribute dictionary), contributes
nothing. -/
def contextData (ctx : List (String × PyVal)) : List (String × PyVal) :=
  match lookupKV ctx "data" with
  | some (.pyexpando dattrs) => updateKV [] dattrs
  | _ => []

/-- Part of Context.load: providers.update(ctx.providers.__dict__) under
the AttributeError handler. -/
def contextProviders (ctx : List (String × PyVal)) : List (String × PyVal) :=
  match lookupKV ctx "providers" with
  | some (.pyexpando pattrs) => updateKV [] pattrs
  | _ => []

/-- Loop body of Context.load for one provider entry: resolve the
resource under the site path; if it exists, parse it, wrap it with
make_expando and assign it under the provider's name; otherwise leave
the context unchanged.  A non-string resource name would raise in the
Python path join; no claim uses one. -/
def applyProvider (fs : FS) (sitepath : String) (c : List (String × PyVal))
    (name : String) (r : PyVal) : List (String × PyVal) :=
  match r with
  | .pystr rn =>
      if fs.isFile (childPath sitepath rn)
      then setKey c name (make_expando (fs.parseVal (childPath sitepath rn)))
      else c
  | _ => c

/-- Provider loop of Context.load in iteration order. -/
def applyProviders (fs : FS) (sitepath : String) :
    List (String × PyVal) → List (String × PyVal) → List (String × PyVal)
  | [], c => c
  | (name, r) :: rest, c =>
      applyProviders fs sitepath rest (applyProvider fs sitepath c name r)

/-- Static method Context.load: start from the explicit data mapping,
then apply every provider entry on top of it. -/
def Context.load (fs : FS) (sitepath : String) (ctx : List (String × PyVal)) :
    List (String × PyVal) :=
  applyProviders fs sitepath (contextProviders ctx) (contextData ctx)

/-- State of a Dependents store: the site folder, the backing file path
(child of the site folder) and the in-memory data. -/
structure Dependents where
  sitepath : String
  deps_file : String
  data : PyVal

/-- Constructor Dependents.__init__: the backing file is the named child
of the site path; if it exists its parsed content is the initial data,
otherwise the data starts as an empty dict.  atexit.register(self.save)
makes the save method below also the session-end flush. -/
def Dependents.init (fs : FS) (sitepath : String) (depends_file_name : String) :
    Dependents :=
  let deps_file := childPath sitepath depends_file_name
  { sitepath := sitepath, deps_file := deps_file,
    data := match fs.files deps_file with
            | some v => v
            | none => .pydict [] }

/-- Method Dependents.save: returns the unchanged store state together
with the write it performs, some (path, serialized data) when the backing
file's parent directory (the site folder) exists, none when it does not
(the flush is silently skipped). -/
def Dependents.save (fs : FS) (st : Dependents) :
    Dependents × Option (String × PyVal) :=
  if fs.dirs st.sitepath then (st, some (st.deps_file, st.data)) else (st, none)

/-- Value datetime.min, the load time before any load. -/
def datetimeMin : Int := -(2 ^ 62)

/-- Built-in default configuration dict assigned to self.default_config in
Config.__init__ (named apart from the record field, which shadows it). -/
def default_config_dict : List (Key × PyVal) :=
  [(.kstr "mode", .pystr "production"),
   (.kstr "simple_copy", .pylist []),
   (.kstr "content_root", .pystr "content"),
   (.kstr "deploy_root", .pystr "deploy"),
   (.kstr "media_root", .pystr "media"),
   (.kstr "layout_root", .pystr "layout"),
   (.kstr "media_url", .pystr "/media"),
   (.kstr "base_url", .pystr "/"),
   (.kstr "encode_safe", .pynull),
   (.kstr "not_found", .pystr "404.html"),
   (.kstr "plugins", .pylist []),
   (.kstr "ignore", .pylist [.pystr "*~", .pystr "*.bak", .pystr ".hg",
      .pystr ".git", .pystr ".svn"]),
   (.kstr "meta", .pydict [(.kstr "nodemeta", .pystr "meta.yaml")])]

/-- State of a Config object.  The bookkeeping attributes of the Python
object are separate record fields here (see the module comment). -/
structure Config where
  default_config : List (Key × PyVal)
  config_file : Option String
  config_dict : Option (List (Key × PyVal))
  load_time : Int
  config_files : List String
  sitepath : String
  attrs : List (String × PyVal)

/-- Document name fallback config_file if config_file else site.yaml
(Python falsiness: None and the empty string both fall back). -/
def confFileName : Option String → String
  | some s => if s = "" then "site.yaml" else s
  | none => "site.yaml"

/-- Method Config.read_config with explicit fuel for the unguarded
inheritance recursion: resolve the document path under the site path; a
missing file contributes an empty mapping and truncates the chain there;
an extends reference resolves the parent first and then merges the
current document's keys over the parent's merged mapping; the path of an
existing file is recorded, current document before its ancestors,
matching the append-then-recurse order of the source.  Returns the
merged mapping together with the recorded file paths. -/
def read_config (fs : FS) (sitepath : String) :
    Nat → Option String → List (Key × PyVal) × List String
  | 0, cf =>
    let conf_file := childPath sitepath (confFileName cf)
    match fs.files conf_file with
    | none => ([], [])
    | some v => (dictItems v, [conf_file])
  | fuel1 + 1, cf =>
    let conf_file := childPath sitepath (confFileName cf)
    match fs.files conf_file with
    | none => ([], [])
    | some v =>
        match lookupKV (dictItems v) (Key.kstr "extends") with
        | some (.pystr p) =>
            let pr := read_config fs sitepath fuel1 (some p)
            (updateKV pr.1 (dictItems v), conf_file :: pr.2)
        | _ => (dictItems v, [conf_file])

/-- Method Config.load: a copy of the defaults, updated with the resolved
document chain, then updated with the caller-supplied override dict when
that is truthy (a non-empty dict).  Returns the merged mapping together
with the provenance paths recorded by read_config. -/
def Config.loadDoc (fs : FS) (fuel : Nat) (st : Config) :
    List (Key × PyVal) × List String :=
  let rc := read_config fs st.sitepath fuel st.config_file
  let conf := updateKV st.default_config rc.1
  match st.config_dict with
  | some d => (if d.isEmpty then conf else updateKV conf d, rc.2)
  | none => (conf, rc.2)

/-- State effect shared by the constructor and reload around load: the
load time becomes the current time (read_config assigns datetime.now()
at the end of every call, the outermost last) and the newly recorded
files are appended to the provenance list. -/
def Config.runLoad (fs : FS) (fuel : Nat) (now : Int) (st : Config) :
    Config × List (Key × PyVal) :=
  let r := Config.loadDoc fs fuel st
  ({ st with load_time := now, config_files := st.config_files ++ r.2 }, r.1)

/-- Constructor Config.__init__: record the defaults and the parameters,
run load once and set the loaded mapping as the attribute dictionary
through Expando.update. -/
def Config.init (fs : FS) (fuel : Nat) (now : Int) (sitepath : String)
    (config_file : Option String) (config_dict : Option (List (Key × PyVal))) :
    Config :=
  let st0 : Config :=
    { default_config := default_config_dict, config_file := config_file,
      config_dict := config_dict, load_time := datetimeMin,
      config_files := [], sitepath := sitepath, attrs := [] }
  let r := Config.runLoad fs fuel now st0
  { r.1 with attrs := Expando.update [] r.2 }

/-- Method Config.reload: a no-op without a truthy config file, otherwise
self.update(self.load()) merges the freshly loaded mapping over the
existing attribute dictionary. -/
def Config.reload (fs : FS) (fuel : Nat) (now : Int) (st : Config) : Config :=
  match st.config_file with
  | none => st
  | some p =>
      if p = "" then st
      else
        let r := Config.runLoad fs fuel now st
        { r.1 with attrs := Expando.update r.1.attrs r.2 }

/-- Property Config.last_modified: the maximum of the provenance files'
on-disk modification times.  Python's max raises ValueError on the empty
provenance list; none models that raise. -/
def Config.last_modified (fs : FS) (st : Config) : Option Int :=
  match st.config_files with
  | [] => none
  | f :: rest => some (rest.foldl (fun m g => max m (fs.mtimes g)) (fs.mtimes f))

/-- Method Config.needs_refresh: true on an empty provenance list,
otherwise true exactly when some provenance file changed since the last
recorded load time. -/
def Config.needs_refresh (fs : FS) (st : Config) : Bool :=
  if st.config_files.isEmpty then true
  else st.config_files.any (fun f => fs.has_changed_since f st.load_time)

/-- Helper _expand_path: the child folder of the site path, fully
expanded.  The full-path expansion of the external path abstraction is
modelled from the spec as the identity on the joined path. -/
def expand_path (sitepath path : String) : String := childPath sitepath path

/-- String-valued attribute access on the Config object; none models the
Python failures (missing attribute, non-string value in a path join). -/
def Config.attrStr (st : Config) (k : String) : Option String :=
  match lookupKV st.attrs k with
  | some (.pystr s) => some s
  | _ => none

/-- Property Config.deploy_root_path: the deploy root resolved under the
site path. -/
def Config.deploy_root_path (st : Config) : Option String :=
  (st.attrStr "deploy_root").map (expand_path st.sitepath)

/-- Property Config.content_root_path: the content root resolved under
the site path. -/
def Config.content_root_path (st : Config) : Option String :=
  (st.attrStr "content_root").map (expand_path st.sitepath)

/-- Property Config.media_root_path: the media root resolved under the
content root, which is itself resolved under the site path. -/
def Config.media_root_path (st : Config) : Option String :=
  match st.attrStr "content_root", st.attrStr "media_root" with
  | some c, some m => some (expand_path st.sitepath (childPath c m))
  | _, _ => none

/-- Property Config.layout_root_path: the layout root resolved under the
site path. -/
def Config.layout_root_path (st : Config) : Option String :=
  (st.attrStr "layout_root").map (expand_path st.sitepath)

/-- Concrete input refuting the unrestricted round trip: a dict whose
value is a list holding a list holding a dict.  Every member comes from
the claim's Value universe (string-keyed mappings and ordered
sequences). -/
def c1CexInput : PyVal :=
  .pydict [(.kstr "a", .pylist [.pylist [.pydict []]])]

/-- Marker separating the two sides of the counterexample: true exactly
when the doubly nested sequence element is a (still wrapped) Expando. -/
def innerLeftExpando : PyVal → Bool
  | .pydict [(_, .pylist [.pylist [.pyexpando _]])] => true
  | _ => false

/-- C1 counterexample: the claim says to_dict applied to make_expando of
any cycle-free Value built from null, booleans, numbers, strings,
sequences, sets and string-keyed mappings gives the value back at any
nesting depth; at c1CexInput the round trip instead returns the
doubly nested mapping still wrapped as an Expando, so the result differs
from the input. -/
theorem claim1_counterexample :
    roundTrip c1CexInput ≠ c1CexInput ∧
    innerLeftExpando (roundTrip c1CexInput) = true ∧
    innerLeftExpando c1CexInput = false := by
  refine ⟨?ne, rfl, rfl⟩
  intro h
  have h1 : innerLeftExpando (roundTrip c1CexInput) = true := rfl
  have h2 : innerLeftExpando c1CexInput = false := rfl
  rw [h, h2] at h1
  exact Bool.noConfusion h1

/-- C1, amended: the round trip is exact for every cycle-free Value whose
mappings are string-keyed with distinct keys and in which a mapping
nested inside a sequence occurs only as a direct element of that
sequence (to_dict unwraps Expando elements of a sequence one level deep
only, so a mapping inside a sequence nested within another sequence
comes back still wrapped); the container kind of every sequence is
preserved, since equality of the results includes the constructor. -/
theorem claim1_roundtrip (v : PyVal) (h : goodVal v = true) :
    roundTrip v = v :=
  roundTrip_goodVal v h

/-- Concrete good value exercising a nested dict inside a list, a set and
a tuple. -/
def c1WitnessInput : PyVal :=
  .pydict [(.kstr "a", .pylist [.pydict [(.kstr "b", .pynull)], .pystr "x"]),
    (.kstr "s", .pyset [.pyint 1, .pyint 2]),
    (.kstr "t", .pytup [.pybool true])]

theorem claim1_roundtrip_witness :
    goodVal c1WitnessInput = true ∧ roundTrip c1WitnessInput = c1WitnessInput :=
  ⟨by decide, claim1_roundtrip c1WitnessInput (by decide)⟩

/-- Keys of a dict value. -/
def dictKeysOf : PyVal → List Key
  | .pydict kvs => kvs.map Prod.fst
  | _ => []

/-- C10: set_expando coerces every key through str, so wrapping a dict
whose coerced keys are distinct yields an Expando whose attribute names
are exactly the str() forms of the keys in order, and unwrapping it again
yields a dict keyed by those string forms, not by the original keys. -/
theorem claim10_str_keys (kvs : List (Key × PyVal)) (h : (tsKeys kvs).Nodup) :
    make_expando (.pydict kvs) =
      .pyexpando (kvs.map (fun kv => (kv.1.toString, make_expando kv.2))) ∧
    dictKeysOf (to_dict_val (make_expando (.pydict kvs))) =
      kvs.map (fun kv => Key.kstr kv.1.toString) := by
  have he : expandoOfDict kvs [] = docToAttrs kvs := by
    rw [expandoOfDict_eq_append kvs [] h (by simp), List.nil_append]
  constructor
  · rw [show make_expando (.pydict kvs) = .pyexpando (expandoOfDict kvs []) from rfl, he]
    rfl
  · rw [show to_dict_val (make_expando (.pydict kvs)) =
        .pydict (to_dictFold (expandoOfDict kvs []) []) from rfl, he,
      to_dictFold_eq_append (docToAttrs kvs) []
        (by rw [map_fst_docToAttrs]; exact h) (by simp),
      List.nil_append]
    simp [dictKeysOf, docToAttrs, List.map_map]

/-- Concrete dict with an integer key and a string key. -/
def c10Input : List (Key × PyVal) :=
  [(.kint 5, .pyint 1), (.kstr "a", .pybool true)]

theorem claim10_witness :
    (tsKeys c10Input).Nodup ∧
    (make_expando (.pydict c10Input) =
        .pyexpando (c10Input.map (fun kv => (kv.1.toString, make_expando kv.2))) ∧
      dictKeysOf (to_dict_val (make_expando (.pydict c10Input))) =
        c10Input.map (fun kv => Key.kstr kv.1.toString)) ∧
    make_expando (.pydict c10Input) =
      .pyexpando [("5", .pyint 1), ("a", .pybool true)] ∧
    dictKeysOf (to_dict_val (make_expando (.pydict c10Input))) =
      [Key.kstr "5", Key.kstr "a"] :=
  ⟨by decide, claim10_str_keys c10Input (by decide), rfl, rfl⟩

/-- File system of the C2 scenario: a child document inheriting an
ancestor document under site root s. -/
def c2fs : FS :=
  { files := fun p =>
      if p = "s/child.yaml" then
        some (.pydict [(.kstr "extends", .pystr "parent.yaml"),
          (.kstr "b", .pyint 2), (.kstr "c", .pyint 1)])
      else if p = "s/parent.yaml" then
        some (.pydict [(.kstr "a", .pyint 2), (.kstr "b", .pyint 1)])
      else none,
    mtimes := fun _ => 0,
    dirs := fun _ => true }

/-- Config state of the C2 scenario: built-in defaults a = 1, bound to
the child document, override c = 2 (the claim parameterizes the
defaults; Config.load reads them from the state field the constructor
normally fills with the fixed literal). -/
def c2st : Config :=
  { default_config := [(.kstr "a", .pyint 1)],
    config_file := some "child.yaml",
    config_dict := some [(.kstr "c", .pyint 2)],
    load_time := datetimeMin, config_files := [], sitepath := "s",
    attrs := [] }

/-- C2: the resolved document of the scenario (defaults a=1, ancestor
a=2 b=1, child b=2 c=1 inheriting the ancestor, override c=2) maps a to
2, b to 2 and c to 2; and in general a dict.update later source wins
key-by-key over every earlier mapping (the lookup in the merged dict is
the later source's lookup whenever that key occurs there). -/
theorem claim2_merge_precedence :
    (lookupKV (Config.loadDoc c2fs 9 c2st).1 (Key.kstr "a") = some (.pyint 2) ∧
     lookupKV (Config.loadDoc c2fs 9 c2st).1 (Key.kstr "b") = some (.pyint 2) ∧
     lookupKV (Config.loadDoc c2fs 9 c2st).1 (Key.kstr "c") = some (.pyint 2)) ∧
    (∀ (d s : List (Key × PyVal)) (k : Key), (s.map Prod.fst).Nodup →
      lookupKV (updateKV d s) k =
        (lookupKV s k).orElse (fun _ => lookupKV d k)) :=
  ⟨⟨rfl, rfl, rfl⟩, fun d s k h => lookupKV_updateKV d s k h⟩

theorem claim2_witness :
    (([(Key.kstr "x", PyVal.pyint 1)].map Prod.fst).Nodup) ∧
    lookupKV (updateKV [(Key.kstr "x", PyVal.pyint 0), (Key.kstr "y", PyVal.pyint 3)]
        [(Key.kstr "x", PyVal.pyint 1)]) (Key.kstr "x") =
      (lookupKV [(Key.kstr "x", PyVal.pyint 1)] (Key.kstr "x")).orElse
        (fun _ => lookupKV [(Key.kstr "x", PyVal.pyint 0), (Key.kstr "y", PyVal.pyint 3)]
          (Key.kstr "x")) :=
  ⟨by decide, claim2_merge_precedence.2 _ _ _ (by decide)⟩

/-- Missing document: read_config contributes an empty mapping, records
nothing and stops (no recursion happens through the missing link). -/
theorem read_config_eq_nil_of_missing (fs : FS) (sitepath : String)
    (fuel : Nat) (cf : Option String)
    (h : fs.files (childPath sitepath (confFileName cf)) = none) :
    read_config fs sitepath fuel cf = ([], []) := by
  cases fuel with
  | zero => rw [read_config]; simp only [h]
  | succ n => rw [read_config]; simp only [h]

/-- Provenance soundness: every path recorded by read_config is a file
that existed. -/
theorem read_config_recorded_exists (fs : FS) (sitepath : String) :
    ∀ (fuel : Nat) (cf : Option String) (p : String),
    p ∈ (read_config fs sitepath fuel cf).2 → (fs.files p).isSome = true := by
  intro fuel
  induction fuel with
  | zero =>
      intro cf p hp
      rw [read_config] at hp
      split at hp
      · simp at hp
      · next hfile =>
          simp only [List.mem_singleton] at hp
          rw [hp, hfile]
          rfl
  | succ n ih =>
      intro cf p hp
      rw [read_config] at hp
      split at hp
      · simp at hp
      · next v hfile =>
          split at hp
          · simp only [List.mem_cons] at hp
            rcases hp with hp | hp
            · rw [hp, hfile]; rfl
            · exact ih _ p hp
          · simp only [List.mem_singleton] at hp
            rw [hp, hfile]
            rfl

/-- File system of the C5 scenario: a child document inheriting a
nonexistent ghost document. -/
def c5fs : FS :=
  { files := fun p =>
      if p = "s/child.yaml" then
        some (.pydict [(.kstr "extends", .pystr "ghost.yaml"), (.kstr "k", .pyint 7)])
      else none,
    mtimes := fun _ => 0,
    dirs := fun _ => true }

/-- Config constructed over the C5 scenario. -/
def c5st : Config := Config.init c5fs 9 10 "s" (some "child.yaml") none

/-- C5: a missing document contributes an empty mapping without error and
truncates the chain at that link (read_config returns immediately, with
no recursion through the missing file); the provenance list records only
paths of files that existed; and concretely a document extending a
nonexistent file resolves to exactly its own keys over the built-in
defaults, with only its own path recorded. -/
theorem claim5_missing_ancestor :
    (∀ (fs : FS) (sitepath : String) (fuel : Nat) (cf : Option String),
       fs.files (childPath sitepath (confFileName cf)) = none →
       read_config fs sitepath fuel cf = ([], [])) ∧
    (∀ (fs : FS) (sitepath : String) (fuel : Nat) (cf : Option String) (p : String),
       p ∈ (read_config fs sitepath fuel cf).2 → (fs.files p).isSome = true) ∧
    (read_config c5fs "s" 9 (some "child.yaml") =
       ([(.kstr "extends", .pystr "ghost.yaml"), (.kstr "k", .pyint 7)],
        ["s/child.yaml"]) ∧
     c5st.config_files = ["s/child.yaml"] ∧
     c5st.attrs = Expando.update []
       (updateKV default_config_dict
         [(.kstr "extends", .pystr "ghost.yaml"), (.kstr "k", .pyint 7)]) ∧
     lookupKV c5st.attrs "k" = some (.pyint 7) ∧
     lookupKV c5st.attrs "mode" = some (.pystr "production")) :=
  ⟨fun fs sp fuel cf h => read_config_eq_nil_of_missing fs sp fuel cf h,
   fun fs sp fuel cf p hp => read_config_recorded_exists fs sp fuel cf p hp,
   rfl, rfl, rfl, rfl, rfl⟩

theorem claim5_witness :
    c5fs.files (childPath "s" (confFileName (some "ghost.yaml"))) = none ∧
    read_config c5fs "s" 9 (some "ghost.yaml") = ([], []) ∧
    "s/child.yaml" ∈ (read_config c5fs "s" 9 (some "child.yaml")).2 ∧
    (c5fs.files "s/child.yaml").isSome = true :=
  ⟨rfl,
   claim5_missing_ancestor.1 c5fs "s" 9 (some "ghost.yaml") rfl,
   by decide,
   claim5_missing_ancestor.2.1 c5fs "s" 9 (some "child.yaml") "s/child.yaml" (by decide)⟩

/-- C4: needs_refresh is true exactly when the provenance list is empty
or some recorded file's on-disk modification time is strictly newer than
the last recorded load time; and immediately after construction (which
sets the load time to the current time) with no file newer than that
time, it is false provided some file was recorded. -/
theorem claim4_needs_refresh :
    (∀ (fs : FS) (st : Config),
       Config.needs_refresh fs st = true ↔
         st.config_files = [] ∨ ∃ f ∈ st.config_files, fs.mtimes f > st.load_time) ∧
    (∀ (fs : FS) (fuel : Nat) (now : Int) (sitepath : String)
       (cf : Option String) (cd : Option (List (Key × PyVal))),
       (Config.init fs fuel now sitepath cf cd).config_files ≠ [] →
       (∀ f ∈ (Config.init fs fuel now sitepath cf cd).config_files,
          ¬ fs.mtimes f > now) →
       Config.needs_refresh fs (Config.init fs fuel now sitepath cf cd) = false) := by
  constructor
  · intro fs st
    cases hcf : st.config_files with
    | nil => simp [Config.needs_refresh, hcf]
    | cons f rest =>
        simp [Config.needs_refresh, hcf, FS.has_changed_since, List.any_eq_true]
  · intro fs fuel now sp cf cd hne hall
    have hlt : (Config.init fs fuel now sp cf cd).load_time = now := rfl
    cases hcf : (Config.init fs fuel now sp cf cd).config_files with
    | nil => exact absurd hcf hne
    | cons f rest =>
        rw [hcf] at hall
        simp only [Config.needs_refresh, hcf, hlt, List.isEmpty_cons,
          FS.has_changed_since, if_false, Bool.ite_eq_false_distrib]
        simp only [List.any_eq_false, decide_eq_true_eq]
        intro g hg
        simpa using hall g hg

/-- File system of the C4 witness: one configuration file, modification
time 5, loaded at time 10. -/
def c4fs : FS :=
  { files := fun p =>
      if p = "s/site.yaml" then some (.pydict [(.kstr "a", .pyint 1)]) else none,
    mtimes := fun _ => 5,
    dirs := fun _ => true }

theorem claim4_witness :
    Config.needs_refresh c4fs (Config.init c4fs 9 10 "s" none none) = false :=
  claim4_needs_refresh.2 c4fs 9 10 "s" none none (by decide) (by decide)

/-- C9: last_modified is partial; on an empty provenance list (no
configuration file ever existed) the Python max raises, modelled as
none, and with a nonempty provenance list a value exists; a resolver
built over a file system without any file has an empty provenance list
and an undefined last_modified. -/
theorem claim9_last_modified :
    (∀ (fs : FS) (st : Config),
       (Config.last_modified fs st = none ↔ st.config_files = []) ∧
       (st.config_files ≠ [] → ∃ t, Config.last_modified fs st = some t)) ∧
    (∀ (fs : FS) (fuel : Nat) (now : Int) (sitepath : String)
       (cf : Option String) (cd : Option (List (Key × PyVal))),
       (∀ p, fs.files p = none) →
       (Config.init fs fuel now sitepath cf cd).config_files = [] ∧
       Config.last_modified fs (Config.init fs fuel now sitepath cf cd) = none) := by
  constructor
  · intro fs st
    constructor
    · cases hcf : st.config_files with
      | nil => simp [Config.last_modified, hcf]
      | cons f rest => simp [Config.last_modified, hcf]
    · intro hne
      cases hcf : st.config_files with
      | nil => exact absurd hcf hne
      | cons f rest => exact ⟨_, by rw [Config.last_modified, hcf]⟩
  · intro fs fuel now sp cf cd hmiss
    have hrc : read_config fs sp fuel cf = ([], []) :=
      read_config_eq_nil_of_missing fs sp fuel cf (hmiss _)
    have hcf : (Config.init fs fuel now sp cf cd).config_files = [] := by
      simp [Config.init, Config.runLoad, Config.loadDoc, hrc]
      cases cd <;> simp
    exact ⟨hcf, by rw [Config.last_modified, hcf]⟩

/-- File system without any file, for the C9 witness. -/
def c9fs : FS :=
  { files := fun _ => none, mtimes := fun _ => 0, dirs := fun _ => true }

theorem claim9_witness :
    (Config.init c9fs 3 7 "s" none none).config_files = [] ∧
    Config.last_modified c9fs (Config.init c9fs 3 7 "s" none none) = none :=
  claim9_last_modified.2 c9fs 3 7 "s" none none (fun _ => rfl)

/-- C7: with content_root set to content and media_root set to media the
media root path resolves under the content root under the site path (not
directly under the site path), while the deploy, content and layout
roots resolve directly under the site path. -/
theorem claim7_derived_paths :
    (∀ st : Config, st.attrStr "content_root" = some "content" →
       st.attrStr "media_root" = some "media" →
       Config.media_root_path st =
         some (childPath st.sitepath (childPath "content" "media"))) ∧
    (∀ (st : Config) (d : String), st.attrStr "deploy_root" = some d →
       Config.deploy_root_path st = some (childPath st.sitepath d)) ∧
    (∀ (st : Config) (c : String), st.attrStr "content_root" = some c →
       Config.content_root_path st = some (childPath st.sitepath c)) ∧
    (∀ (st : Config) (l : String), st.attrStr "layout_root" = some l →
       Config.layout_root_path st = some (childPath st.sitepath l)) := by
  refine ⟨?m, ?d, ?c, ?l⟩
  · intro st h1 h2
    simp [Config.media_root_path, h1, h2, expand_path]
  · intro st d h
    simp [Config.deploy_root_path, h, expand_path]
  · intro st c h
    simp [Config.content_root_path, h, expand_path]
  · intro st l h
    simp [Config.layout_root_path, h, expand_path]

/-- Config over an empty file system: all path attributes come from the
built-in defaults. -/
def c7st : Config := Config.init c9fs 3 0 "site" none none

theorem claim7_witness :
    c7st.attrStr "content_root" = some "content" ∧
    c7st.attrStr "media_root" = some "media" ∧
    Config.media_root_path c7st = some "site/content/media" ∧
    Config.deploy_root_path c7st = some "site/deploy" ∧
    Config.layout_root_path c7st = some "site/layout" :=
  ⟨by decide, by decide,
   by rw [claim7_derived_paths.1 c7st (by decide) (by decide)]; rfl,
   by rw [claim7_derived_paths.2.1 c7st "deploy" (by decide)]; rfl,
   by rw [claim7_derived_paths.2.2.2 c7st "layout" (by decide)]; rfl⟩

/-- C8: save (also registered as the session-end flush through atexit)
writes the whole in-memory data to the backing file exactly when the
backing file's parent directory (the site folder) exists, and otherwise
performs no write, raises nothing and leaves the state unchanged. -/
theorem claim8_save (fs : FS) (st : Dependents) :
    (fs.dirs st.sitepath = true →
       Dependents.save fs st = (st, some (st.deps_file, st.data))) ∧
    (fs.dirs st.sitepath = false →
       Dependents.save fs st = (st, none)) := by
  constructor <;> intro h <;> simp [Dependents.save, h]

/-- File system whose directories all exist. -/
def c8fsYes : FS :=
  { files := fun _ => none, mtimes := fun _ => 0, dirs := fun _ => true }

/-- File system whose directories are all gone. -/
def c8fsNo : FS :=
  { files := fun _ => none, mtimes := fun _ => 0, dirs := fun _ => false }

/-- Dependency store of the C8 witness. -/
def c8st : Dependents := Dependents.init c8fsYes "s" ".hyde_deps"

theorem claim8_witness :
    Dependents.save c8fsYes c8st = (c8st, some ("s/.hyde_deps", c8st.data)) ∧
    Dependents.save c8fsNo c8st = (c8st, none) :=
  ⟨by rw [(claim8_save c8fsYes c8st).1 rfl]; rfl,
   (claim8_save c8fsNo c8st).2 rfl⟩

theorem lookupKV_applyProvider_ne (fs : FS) (sp : String)
    (c : List (String × PyVal)) (name : String) (r : PyVal) (k : String)
    (h : k ≠ name) :
    lookupKV (applyProvider fs sp c name r) k = lookupKV c k := by
  cases r <;> simp only [applyProvider]
  case pystr rn =>
    split
    · rw [lookupKV_setKey, if_neg h]
    · rfl

theorem lookupKV_applyProviders_not_mem (fs : FS) (sp : String)
    (ps : List (String × PyVal)) :
    ∀ (c : List (String × PyVal)) (k : String), k ∉ ps.map Prod.fst →
    lookupKV (applyProviders fs sp ps c) k = lookupKV c k := by
  induction ps with
  | nil => intro c k _; rfl
  | cons p rest ih =>
      intro c k hk
      obtain ⟨n0, r0⟩ := p
      simp only [List.map_cons, List.mem_cons] at hk
      push_neg at hk
      rw [show applyProviders fs sp ((n0, r0) :: rest) c =
        applyProviders fs sp rest (applyProvider fs sp c n0 r0) from rfl,
        ih _ k hk.2, lookupKV_applyProvider_ne fs sp c n0 r0 k hk.1]

theorem lookupKV_applyProviders_mem (fs : FS) (sp : String)
    (ps : List (String × PyVal)) :
    ∀ (c : List (String × PyVal)) (name rn : String),
    (ps.map Prod.fst).Nodup → (name, PyVal.pystr rn) ∈ ps →
    fs.isFile (childPath sp rn) = true →
    lookupKV (applyProviders fs sp ps c) name =
      some (make_expando (fs.parseVal (childPath sp rn))) := by
  induction ps with
  | nil => intro c name rn _ hmem _; simp at hmem
  | cons p rest ih =>
      intro c name rn hnd hmem hex
      obtain ⟨n0, r0⟩ := p
      simp only [List.map_cons, List.nodup_cons] at hnd
      rw [show applyProviders fs sp ((n0, r0) :: rest) c =
        applyProviders fs sp rest (applyProvider fs sp c n0 r0) from rfl]
      rcases List.mem_cons.mp hmem with hhd | htl
      · have hname : n0 = name := (congrArg Prod.fst hhd.symm)
        have hr : r0 = PyVal.pystr rn := (congrArg Prod.snd hhd.symm)
        subst hname
        subst hr
        have hnot : n0 ∉ rest.map Prod.fst := hnd.1
        rw [lookupKV_applyProviders_not_mem fs sp rest _ n0 hnot]
        simp only [applyProvider, hex, if_true]
        rw [lookupKV_setKey, if_pos rfl]
      · exact ih _ name rn hnd.2 htl hex

theorem lookupKV_applyProviders_missing (fs : FS) (sp : String)
    (ps : List (String × PyVal)) :
    ∀ (c : List (String × PyVal)) (name rn : String),
    (ps.map Prod.fst).Nodup → (name, PyVal.pystr rn) ∈ ps →
    fs.files (childPath sp rn) = none → lookupKV c name = none →
    lookupKV (applyProviders fs sp ps c) name = none := by
  induction ps with
  | nil => intro c name rn _ hmem _ _; simp at hmem
  | cons p rest ih =>
      intro c name rn hnd hmem hmiss hc
      obtain ⟨n0, r0⟩ := p
      simp only [List.map_cons, List.nodup_cons] at hnd
      rw [show applyProviders fs sp ((n0, r0) :: rest) c =
        applyProviders fs sp rest (applyProvider fs sp c n0 r0) from rfl]
      rcases List.mem_cons.mp hmem with hhd | htl
      · have hname : n0 = name := (congrArg Prod.fst hhd.symm)
        have hr : r0 = PyVal.pystr rn := (congrArg Prod.snd hhd.symm)
        subst hname
        subst hr
        rw [lookupKV_applyProviders_not_mem fs sp rest _ n0 hnd.1]
        simp only [applyProvider, FS.isFile, hmiss, Option.isSome_none, if_false]
        exact hc
      · have hne : n0 ≠ name := by
          intro hbad
          subst hbad
          exact hnd.1 (List.mem_map.mpr ⟨(n0, PyVal.pystr rn), htl, rfl⟩)
        refine ih _ name rn hnd.2 htl hmiss ?_
        rw [lookupKV_applyProvider_ne fs sp c n0 r0 name (Ne.symm hne)]
        exact hc

/-- C6: in Context.load the providers are applied after the explicit
data mapping, so a provider entry whose resource file exists determines
the final value of its key (the parsed resource wrapped by make_expando)
regardless of what the data mapping held there; and a provider entry
whose resource file does not exist is skipped silently, so its key is
absent whenever the data mapping did not supply it. -/
theorem claim6_provider_shadowing (fs : FS) (sitepath : String)
    (ctx : List (String × PyVal)) (name rn : String)
    (hnd : ((contextProviders ctx).map Prod.fst).Nodup)
    (hmem : (name, PyVal.pystr rn) ∈ contextProviders ctx) :
    (fs.isFile (childPath sitepath rn) = true →
       lookupKV (Context.load fs sitepath ctx) name =
         some (make_expando (fs.parseVal (childPath sitepath rn)))) ∧
    (fs.files (childPath sitepath rn) = none →
       lookupKV (contextData ctx) name = none →
       lookupKV (Context.load fs sitepath ctx) name = none) := by
  constructor
  · intro hex
    exact lookupKV_applyProviders_mem fs sitepath (contextProviders ctx)
      (contextData ctx) name rn hnd hmem hex
  · intro hmiss hdata
    exact lookupKV_applyProviders_missing fs sitepath (contextProviders ctx)
      (contextData ctx) name rn hnd hmem hmiss hdata

/-- File system of the C6 witness: one provider resource x.yaml holding
the mapping y = 2. -/
def c6fs : FS :=
  { files := fun p =>
      if p = "s/x.yaml" then some (.pydict [(.kstr "y", .pyint 2)]) else none,
    mtimes := fun _ => 0,
    dirs := fun _ => true }

/-- Attribute dictionary of the C6 configuration: explicit data x = 1 and
providers x (existing resource) and z (missing resource). -/
def c6ctx : List (String × PyVal) :=
  [("data", .pyexpando [("x", .pyint 1)]),
   ("providers", .pyexpando [("x", .pystr "x.yaml"), ("z", .pystr "none.yaml")])]

theorem claim6_witness :
    lookupKV (contextData c6ctx) "x" = some (.pyint 1) ∧
    lookupKV (Context.load c6fs "s" c6ctx) "x" =
      some (make_expando (c6fs.parseVal (childPath "s" "x.yaml"))) ∧
    lookupKV (Context.load c6fs "s" c6ctx) "x" =
      some (.pyexpando [("y", .pyint 2)]) ∧
    lookupKV (Context.load c6fs "s" c6ctx) "z" = none :=
  ⟨rfl,
   (claim6_provider_shadowing c6fs "s" c6ctx "x" "x.yaml" (by decide)
     (List.mem_cons_self _ _)).1 rfl,
   rfl,
   (claim6_provider_shadowing c6fs "s" c6ctx "z" "none.yaml" (by decide)
     (List.mem_cons_of_mem _ (List.mem_cons_self _ _))).2 rfl rfl⟩

/-- File system at construction time of the C3 scenario: site.yaml holds
c = 1. -/
def c3fs0 : FS :=
  { files := fun p =>
      if p = "s/site.yaml" then some (.pydict [(.kstr "c", .pyint 1)]) else none,
    mtimes := fun _ => 0,
    dirs := fun _ => true }

/-- File system at reload time of the C3 scenario: site.yaml now holds
c = 3. -/
def c3fs1 : FS :=
  { files := fun p =>
      if p = "s/site.yaml" then some (.pydict [(.kstr "c", .pyint 3)]) else none,
    mtimes := fun _ => 0,
    dirs := fun _ => true }

/-- Resolver of the C3 scenario, constructed with override c = 2. -/
def c3st : Config := Config.init c3fs0 9 10 "s" (some "site.yaml") (some [(.kstr "c", .pyint 2)])

/-- Reload as the claim describes it, for comparison: only the re-read
files merged over the existing tree, without the override merged on top
again. -/
def specReload (fs : FS) (fuel : Nat) (now : Int) (st : Config) : Config :=
  match st.config_file with
  | none => st
  | some p =>
      if p = "" then st
      else
        let rc := read_config fs st.sitepath fuel st.config_file
        { st with
          load_time := now
          config_files := st.config_files ++ rc.2
          attrs := Expando.update st.attrs rc.1 }

/-- C3 counterexample: the claim says reload incorporates only the
re-read files over the existing tree, never re-applying the override;
but reload runs load(), which merges the override again, so after the
backing file changes c from 1 to 3 the reloaded tree still maps c to the
override value 2, while the claim's described reload would map it to 3. -/
theorem claim3_counterexample :
    lookupKV (Config.reload c3fs1 9 20 c3st).attrs "c" = some (.pyint 2) ∧
    lookupKV (specReload c3fs1 9 20 c3st).attrs "c" = some (.pyint 3) ∧
    Config.reload c3fs1 9 20 c3st ≠ specReload c3fs1 9 20 c3st := by
  refine ⟨rfl, rfl, ?_⟩
  intro h
  have h1 : lookupKV (Config.reload c3fs1 9 20 c3st).attrs "c" = some (.pyint 2) := rfl
  have h2 : lookupKV (specReload c3fs1 9 20 c3st).attrs "c" = some (.pyint 3) := rfl
  rw [h] at h1
  exact absurd (h1.symm.trans h2) (by simp)

theorem tsKeys_eq_map (l : List (Key × PyVal)) :
    tsKeys l = (l.map Prod.fst).map Key.toString := by
  induction l with
  | nil => rfl
  | cons kv rest ih => simp [tsKeys]

theorem allStrKeys_eq_map (l : List (Key × PyVal)) :
    l.all (fun kv => isStrKey kv.1) = (l.map Prod.fst).all isStrKey := by
  induction l with
  | nil => rfl
  | cons kv rest ih => simp [ih]

theorem mem_of_ts_mem (keys : List Key) (hstr : keys.all isStrKey = true)
    (k : Key) (hk : isStrKey k = true) (h : k.toString ∈ keys.map Key.toString) :
    k ∈ keys := by
  induction keys with
  | nil => simp at h
  | cons k0 rest ih =>
      rw [List.all_cons, Bool.and_eq_true] at hstr
      simp only [List.map_cons, List.mem_cons] at h
      rcases h with h | h
      · obtain ⟨s, rfl⟩ : ∃ s, k = Key.kstr s := by
          cases k with
          | kstr s => exact ⟨s, rfl⟩
          | kint n => exact Bool.noConfusion (show false = true from hk)
        obtain ⟨s0, rfl⟩ : ∃ s0, k0 = Key.kstr s0 := by
          cases k0 with
          | kstr s0 => exact ⟨s0, rfl⟩
          | kint n => exact Bool.noConfusion (show false = true from hstr.1)
        rw [show (Key.kstr s).toString = s from rfl,
          show (Key.kstr s0).toString = s0 from rfl] at h
        rw [h]
        exact List.mem_cons_self _ _
      · exact List.mem_cons_of_mem _ (ih hstr.2 h)

theorem wfDocB_setKey (base : List (Key × PyVal)) (k : Key) (v : PyVal)
    (hb : wfDocB base = true) (hk : isStrKey k = true) :
    wfDocB (setKey base k v) = true := by
  rw [wfDocB, Bool.and_eq_true, decide_eq_true_eq] at hb
  rw [wfDocB, Bool.and_eq_true, decide_eq_true_eq]
  obtain ⟨hb1, hb2⟩ := hb
  rw [allStrKeys_eq_map] at hb1 ⊢
  rw [tsKeys_eq_map] at hb2 ⊢
  rw [map_fst_setKey]
  by_cases hm : k ∈ base.map Prod.fst
  · rw [if_pos hm]
    exact ⟨hb1, hb2⟩
  · rw [if_neg hm]
    constructor
    · simp [List.all_append, hb1, hk]
    · rw [List.map_append]
      refine List.Nodup.append hb2 (by simp) ?_
      intro x hx hx2
      simp only [List.map_cons, List.map_nil, List.mem_singleton] at hx2
      rw [hx2] at hx
      exact hm (mem_of_ts_mem (base.map Prod.fst) hb1 k hk hx)

theorem wfDocB_updateKV (base s : List (Key × PyVal))
    (hb : wfDocB base = true) (hs : s.all (fun kv => isStrKey kv.1) = true) :
    wfDocB (updateKV base s) = true := by
  induction s generalizing base with
  | nil => exact hb
  | cons kv rest ih =>
      obtain ⟨k, v⟩ := kv
      rw [List.all_cons, Bool.and_eq_true] at hs
      exact ih (setKey base k v) (wfDocB_setKey base k v hb hs.1) hs.2

theorem wfDocB_read_config (fs : FS) (sitepath : String)
    (hfs : ∀ p v, fs.files p = some v → wfDocB (dictItems v) = true) :
    ∀ (fuel : Nat) (cf : Option String),
    wfDocB (read_config fs sitepath fuel cf).1 = true := by
  intro fuel
  induction fuel with
  | zero =>
      intro cf
      rw [read_config]
      split
      · decide
      · next v hfile => exact hfs _ v hfile
  | succ n ih =>
      intro cf
      rw [read_config]
      split
      · decide
      · next v hfile =>
          split
          · exact wfDocB_updateKV _ _ (ih _)
              (Bool.and_eq_true _ _ |>.mp (hfs _ v hfile) |>.1)
          · exact hfs _ v hfile

theorem expandoUpdate_eq_updateKV (attrs : List (String × PyVal))
    (doc : List (Key × PyVal)) :
    Expando.update attrs doc = updateKV attrs (docToAttrs doc) := by
  rw [Expando.update, updateKV, docToAttrs, List.foldl_map]
  rfl

theorem lookupKV_expandoUpdate (attrs : List (String × PyVal))
    (doc : List (Key × PyVal)) (s : String) (hnd : (tsKeys doc).Nodup) :
    lookupKV (Expando.update attrs doc) s =
      (lookupKV (docToAttrs doc) s).orElse (fun _ => lookupKV attrs s) := by
  rw [expandoUpdate_eq_updateKV,
    lookupKV_updateKV _ _ _ (by rw [map_fst_docToAttrs]; exact hnd)]

theorem lookupKV_docToAttrs (doc : List (Key × PyVal)) (s : String) (v : PyVal)
    (hstr : doc.all (fun kv => isStrKey kv.1) = true)
    (h : lookupKV doc (Key.kstr s) = some v) :
    lookupKV (docToAttrs doc) s = some (make_expando v) := by
  induction doc with
  | nil => exact Option.noConfusion h
  | cons kv rest ih =>
      obtain ⟨k, v0⟩ := kv
      rw [List.all_cons, Bool.and_eq_true] at hstr
      obtain ⟨s0, rfl⟩ : ∃ s0, k = Key.kstr s0 := by
        cases k with
        | kstr s0 => exact ⟨s0, rfl⟩
        | kint n => exact Bool.noConfusion (show false = true from hstr.1)
      by_cases hs : s0 = s
      · subst hs
        rw [lookupKV, if_pos rfl] at h
        rw [show docToAttrs ((Key.kstr s0, v0) :: rest) =
          (s0, make_expando v0) :: docToAttrs rest from rfl,
          lookupKV, if_pos rfl, Option.some.injEq]
        rw [Option.some.injEq] at h
        rw [h]
      · have hkne : Key.kstr s0 ≠ Key.kstr s := by
          intro hbad
          exact hs (Key.kstr.injEq s0 s |>.mp hbad)
        rw [lookupKV, if_neg hkne] at h
        rw [show docToAttrs ((Key.kstr s0, v0) :: rest) =
          (s0, make_expando v0) :: docToAttrs rest from rfl,
          lookupKV, if_neg hs]
        exact ih hstr.2 h

theorem lookupKV_loadDoc_override (fs : FS) (fuel : Nat) (st : Config)
    (d : List (Key × PyVal)) (k : Key) (v : PyVal)
    (hd : st.config_dict = some d) (hwfd : wfDocB d = true)
    (hlk : lookupKV d k = some v) :
    lookupKV (Config.loadDoc fs fuel st).1 k = some v := by
  have hnd : (d.map Prod.fst).Nodup := by
    have h2 : (tsKeys d).Nodup :=
      of_decide_eq_true (Bool.and_eq_true _ _ |>.mp hwfd).2
    rw [tsKeys_eq_map] at h2
    exact h2.of_map
  have hne : d.isEmpty = false := by
    cases d with
    | nil => exact Option.noConfusion hlk
    | cons kv rest => rfl
  simp only [Config.loadDoc, hd, hne, Bool.false_eq_true, if_false]
  rw [lookupKV_updateKV _ _ _ hnd, hlk]
  rfl

/-- C3, amended: reload is not limited to the re-read files: it runs
load() again, which re-applies the caller-supplied override after chain
resolution, so after every reload each key of a well-formed override
still maps to the override's (wrapped) value in the attribute tree. -/
theorem claim3_amended (fs : FS) (fuel : Nat) (now : Int) (st : Config)
    (p : String) (d : List (Key × PyVal)) (s : String) (v : PyVal)
    (hp : st.config_file = some p) (hp2 : p ≠ "")
    (hd : st.config_dict = some d) (hwfd : wfDocB d = true)
    (hlk : lookupKV d (Key.kstr s) = some v)
    (hwfdef : wfDocB st.default_config = true)
    (hfs : ∀ q w, fs.files q = some w → wfDocB (dictItems w) = true) :
    lookupKV (Config.reload fs fuel now st).attrs s = some (make_expando v) := by
  have hwfdoc : wfDocB (Config.loadDoc fs fuel st).1 = true := by
    have hrc := wfDocB_read_config fs st.sitepath hfs fuel st.config_file
    have hbase : wfDocB (updateKV st.default_config
        (read_config fs st.sitepath fuel st.config_file).1) = true :=
      wfDocB_updateKV _ _ hwfdef (Bool.and_eq_true _ _ |>.mp hrc).1
    have hstrd : d.all (fun kv => isStrKey kv.1) = true :=
      (Bool.and_eq_true _ _ |>.mp hwfd).1
    simp only [Config.loadDoc, hd]
    by_cases he : d.isEmpty = true
    · simp only [he, if_true]
      exact hbase
    · simp only [he, if_false]
      exact wfDocB_updateKV _ _ hbase hstrd
  have hattrs : (Config.reload fs fuel now st).attrs =
      Expando.update st.attrs (Config.loadDoc fs fuel st).1 := by
    simp only [Config.reload, hp]
    rw [if_neg hp2]
    rfl
  have htsnd : (tsKeys (Config.loadDoc fs fuel st).1).Nodup :=
    of_decide_eq_true (Bool.and_eq_true _ _ |>.mp hwfdoc).2
  have hstrdoc : (Config.loadDoc fs fuel st).1.all (fun kv => isStrKey kv.1) = true :=
    (Bool.and_eq_true _ _ |>.mp hwfdoc).1
  have hlkdoc : lookupKV (Config.loadDoc fs fuel st).1 (Key.kstr s) = some v :=
    lookupKV_loadDoc_override fs fuel st d (Key.kstr s) v hd hwfd hlk
  rw [hattrs, lookupKV_expandoUpdate _ _ _ htsnd,
    lookupKV_docToAttrs _ s v hstrdoc hlkdoc]
  rfl

theorem claim3_amended_witness :
    c3st.config_file = some "site.yaml" ∧
    c3st.config_dict = some [(Key.kstr "c", PyVal.pyint 2)] ∧
    lookupKV (Config.reload c3fs1 9 20 c3st).attrs "c" =
      some (make_expando (PyVal.pyint 2)) :=
  ⟨rfl, rfl,
   claim3_amended c3fs1 9 20 c3st "site.yaml" [(Key.kstr "c", PyVal.pyint 2)]
     "c" (PyVal.pyint 2) rfl (by decide) rfl (by decide) rfl (by decide)
     (by
       intro q w h
       by_cases hq : q = "s/site.yaml"
       · subst hq
         rw [show c3fs1.files "s/site.yaml" =
           some (.pydict [(.kstr "c", .pyint 3)]) from rfl] at h
         have h2 := Option.some.inj h
         rw [← h2]
         decide
       · rw [show c3fs1.files q =
           (if q = "s/site.yaml" then some (.pydict [(.kstr "c", .pyint 3)]) else none)
           from rfl, if_neg hq] at h
         exact Option.noConfusion h)⟩
